import Mathlib

/-!
Verification of the download-state engine (models.py) of a BitTorrent-style
client.  The Python classes are shallowly embedded as Lean structures and the
mutating methods as pure state-passing functions; fallible methods return
Except.  Machine integers are modelled as Nat (or Int where Python
subtraction can go negative), Python sets and dicts as lists with the
equality semantics of the source, and bitarray as List Bool.
-/

set_option maxRecDepth 10000

/-- Nat ceiling division, modelling Python math.ceil(a / b) on exact ints. -/
def ceilDiv (a b : Nat) : Nat := (a + b - 1) / b

/-- Peer: host/port identity.  Python equality and hash use only
(host, port); peer_id is ignored. -/
structure Peer where
  host : String
  port : Nat
  peer_id : Option (List Nat) := none
deriving DecidableEq, Repr

/-- Python Peer equality: compares host and port only. -/
def Peer.eq (a b : Peer) : Bool := a.host == b.host && a.port == b.port

/-- BlockRequest: a byte range inside a piece. -/
structure BlockRequest where
  piece_index : Nat
  block_begin : Nat
  block_length : Nat
deriving DecidableEq, Repr

/-- BlockRequest.eq compares the instance dictionaries, i.e. all three
fields (piece_index, block_begin, block_length). -/
def BlockRequest.eq (a b : BlockRequest) : Bool :=
  a.piece_index == b.piece_index && a.block_begin == b.block_begin &&
    a.block_length == b.block_length

/-- BlockRequest.hash hashes the tuple of the three fields; modelled
abstractly by the tuple itself (equal tuples give equal hashes). -/
def BlockRequest.hashKey (r : BlockRequest) : Nat × Nat × Nat :=
  (r.piece_index, r.block_begin, r.block_length)

/-- BlockRequestFuture: a BlockRequest plus an asyncio.Future.  The future
resolution slot is modelled by result; objId models Python object identity
(each runtime instance has a distinct id). -/
structure BlockRequestFuture where
  objId : Nat
  piece_index : Nat
  block_begin : Nat
  block_length : Nat
  result : Option Peer := none
  prev_performers : List Peer := []
  performer : Option Peer := none
deriving DecidableEq, Repr

/-- The request triple carried by a future. -/
def BlockRequestFuture.request (f : BlockRequestFuture) : BlockRequest :=
  ⟨f.piece_index, f.block_begin, f.block_length⟩

/-- The source sets BlockRequestFuture equality to asyncio.Future equality.
asyncio.Future defines no custom eq, so this is object identity
comparison, modelled by comparing objId. -/
def BlockRequestFuture.eq (a b : BlockRequestFuture) : Bool := a.objId == b.objId

/-- Likewise the hash is the object-identity based default hash. -/
def BlockRequestFuture.hashKey (f : BlockRequestFuture) : Nat := f.objId

/-- asyncio.Future.set_result: records the result; raises InvalidStateError
when the future is already resolved. -/
def BlockRequestFuture.set_result (f : BlockRequestFuture) (p : Peer) :
    Except String BlockRequestFuture :=
  if f.result.isSome then .error "InvalidStateError"
  else .ok { f with result := some p }

/-- DownloadInfo.MARKED_BLOCK_SIZE = 2 ** 10. -/
def MARKED_BLOCK_SIZE : Nat := 2 ^ 10

/-- PieceInfo: per-piece download state.  The three fields that Python sets
to None once the piece is downloaded are Options; sets are lists. -/
structure PieceInfo where
  piece_hash : List Nat
  length : Nat
  selected : Bool
  owners : List Peer
  validating : Bool
  downloaded : Bool
  sources : Option (List Peer)
  block_downloaded : Option (List Bool)
  blocks_expected : Option (List BlockRequestFuture)
deriving DecidableEq, Repr

instance : Inhabited PieceInfo :=
  ⟨⟨[], 0, true, [], false, false, none, none, none⟩⟩

/-- PieceInfo construction: selected true, empty owners, not validating,
then reset_content (not downloaded, empty sources, no bitfield, empty
expected set). -/
def PieceInfo.make (h : List Nat) (len : Nat) : PieceInfo :=
  { piece_hash := h, length := len, selected := true, owners := [],
    validating := false, downloaded := false, sources := some [],
    block_downloaded := none, blocks_expected := some [] }

/-- PieceInfo.reset_content. -/
def PieceInfo.reset_content (p : PieceInfo) : PieceInfo :=
  { p with downloaded := false, sources := some [],
           block_downloaded := none, blocks_expected := some [] }

/-- PieceInfo.reset_run_state: clears owners, validating and the expected
set; everything else is untouched. -/
def PieceInfo.reset_run_state (p : PieceInfo) : PieceInfo :=
  { p with owners := [], validating := false, blocks_expected := some [] }

/-- Python set.add with Peer equality (host, port). -/
def addPeer (s : List Peer) (p : Peer) : List Peer :=
  if s.any (fun q => Peer.eq q p) then s else s ++ [p]

/-- The slice assignment arr[b:e] = True of the bitfield: every index in
[b, e) becomes true, everything else is unchanged (Python slices clamp to
the array length). -/
def markSliceAux (b e i : Nat) : List Bool → List Bool
  | [] => []
  | x :: rest => (x || (decide (b ≤ i) && decide (i < e))) :: markSliceAux b e (i + 1) rest

def markSlice (arr : List Bool) (b e : Nat) : List Bool := markSliceAux b e 0 arr

/-- arr[q_begin:q_end].all() for the query range of a pending future:
q_begin = block_begin // MARKED_BLOCK_SIZE,
q_end = ceil((block_begin + block_length) / MARKED_BLOCK_SIZE). -/
def futAllDownloaded (arr : List Bool) (f : BlockRequestFuture) : Bool :=
  let q_begin := f.block_begin / MARKED_BLOCK_SIZE
  let q_end := ceilDiv (f.block_begin + f.block_length) MARKED_BLOCK_SIZE
  ((arr.drop q_begin).take (q_end - q_begin)).all (fun b => b)

/-- The scan over blocks_expected: futures whose query range is entirely
true are resolved with the source and collected for removal; the first
component is the remaining set, the second the resolved (removed) futures. -/
def resolveCovered (arr : List Bool) (source : Peer) :
    List BlockRequestFuture →
      Except String (List BlockRequestFuture × List BlockRequestFuture)
  | [] => .ok ([], [])
  | f :: rest =>
    match resolveCovered arr source rest with
    | .error e => .error e
    | .ok (remaining, resolved) =>
      if futAllDownloaded arr f then
        match f.set_result source with
        | .error e => .error e
        | .ok f' => .ok (remaining, f' :: resolved)
      else
        .ok (f :: remaining, resolved)

/-- The bitfield a marking call works on: the existing one, or a freshly
allocated all-false bitfield of ceil(length / MARKED_BLOCK_SIZE) bits. -/
def PieceInfo.initialArr (p : PieceInfo) : List Bool :=
  match p.block_downloaded with
  | some a => a
  | none => List.replicate (ceilDiv p.length MARKED_BLOCK_SIZE) false

/-- The bitfield after the slice assignment of a marking call: the working
bitfield with the bits from mark_begin = ceil(block_begin / SIZE) up to
mark_end = (block_begin + block_length) // SIZE set true, where mark_end is
the bitfield length when the request reaches exactly the piece end. -/
def PieceInfo.markedArr (p : PieceInfo) (request : BlockRequest) : List Bool :=
  markSlice p.initialArr (ceilDiv request.block_begin MARKED_BLOCK_SIZE)
    (if request.block_begin + request.block_length == p.length
     then p.initialArr.length
     else (request.block_begin + request.block_length) / MARKED_BLOCK_SIZE)

/-- PieceInfo.mark_downloaded_blocks.  Returns the updated piece and the
list of resolved-and-removed futures.  Fails if the piece is already
downloaded.  The None branches for sources / blocks_expected model the
attribute errors Python would raise there; they are unreachable while the
piece is not downloaded. -/
def PieceInfo.mark_downloaded_blocks (p : PieceInfo) (source : Peer)
    (request : BlockRequest) :
    Except String (PieceInfo × List BlockRequestFuture) :=
  if p.downloaded then .error "The whole piece is already downloaded"
  else
    match p.sources, p.blocks_expected with
    | some srcs, some futs =>
      let srcs' := addPeer srcs source
      let arr := p.markedArr request
      match resolveCovered arr source futs with
      | .error e => .error e
      | .ok (remaining, resolved) =>
        .ok ({ p with sources := some srcs', block_downloaded := some arr,
                      blocks_expected := some remaining }, resolved)
    | _, _ => .error "AttributeError"

/-- PieceInfo.are_all_blocks_downloaded. -/
def PieceInfo.are_all_blocks_downloaded (p : PieceInfo) : Bool :=
  p.downloaded ||
    (match p.block_downloaded with
     | some a => a.all (fun b => b)
     | none => false)

/-- PieceInfo.mark_as_downloaded: fails when already downloaded, otherwise
sets downloaded and discards the three bookkeeping structures. -/
def PieceInfo.mark_as_downloaded (p : PieceInfo) : Except String PieceInfo :=
  if p.downloaded then .error "The piece is already downloaded"
  else .ok { p with downloaded := true, sources := none,
                    block_downloaded := none, blocks_expected := none }

/-- FileInfo: per-file metadata.  offset is None in Python until the file
tree is created; modelled as a Nat that construction assigns (0 before). -/
structure FileInfo where
  length : Nat
  path : List String
  md5sum : Option String := none
  offset : Nat := 0
  selected : Bool := true
deriving DecidableEq, Repr

instance : Inhabited FileInfo := ⟨⟨0, [], none, 0, true⟩⟩

/-- FileInfo construction: offset unassigned, selected true. -/
def FileInfo.make (len : Nat) (path : List String) (md5 : Option String) : FileInfo :=
  { length := len, path := path, md5sum := md5, offset := 0, selected := true }

/-- The file tree: a node is a leaf (an index into the files list, since
Python stores aliased references to the same FileInfo objects) or a dict
from path segment to child node. -/
inductive FileTree where
  | leaf (idx : Nat)
  | dir (children : List (String × FileTree))
deriving Repr

/-- dict lookup (first matching key). -/
def dictGet (children : List (String × FileTree)) (k : String) : Option FileTree :=
  (children.find? (fun c => c.1 == k)).map (fun c => c.2)

/-- dict assignment: replace an existing binding or append a new one. -/
def dictSet (children : List (String × FileTree)) (k : String) (v : FileTree) :
    List (String × FileTree) :=
  if children.any (fun c => c.1 == k) then
    children.map (fun c => if c.1 == k then (k, v) else c)
  else children ++ [(k, v)]

/-- Inserting one file into the tree, following _create_file_tree: an empty
path replaces the whole (sub)tree by the leaf; otherwise the intermediate
segments are walked with setdefault(elem, dict) and the last segment is
assigned.  Walking into a leaf raises a TypeError in Python (a FileInfo is
not subscriptable). -/
def insertLeaf : FileTree → List String → Nat → Except String FileTree
  | _, [], idx => .ok (.leaf idx)
  | .dir children, [last], idx => .ok (.dir (dictSet children last (.leaf idx)))
  | .dir children, seg :: rest, idx =>
    let child := match dictGet children seg with
      | some c => c
      | none => .dir []
    match insertLeaf child rest idx with
    | .error e => .error e
    | .ok child' => .ok (.dir (dictSet children seg child'))
  | .leaf _, _ :: _, _ => .error "TypeError"

/-- Python _create_file_tree: assigns offsets sequentially (a running sum of the
lengths) and inserts every file into the tree, starting from an empty
dict. -/
def buildTree : List FileInfo → Nat → Nat → FileTree →
    Except String (List FileInfo × FileTree)
  | [], _, _, t => .ok ([], t)
  | f :: rest, idx, offset, t =>
    let f' := { f with offset := offset }
    match insertLeaf t f.path idx with
    | .error e => .error e
    | .ok t' =>
      match buildTree rest (idx + 1) (offset + f.length) t' with
      | .error e => .error e
      | .ok (rest', t'') => .ok (f' :: rest', t'')

def createFileTree (files : List FileInfo) : Except String (List FileInfo × FileTree) :=
  buildTree files 0 0 (.dir [])

/-- Python _get_file_tree_node: walk the tree by path segments; a missing segment
raises the path-not-found ValueError, indexing into a leaf raises
TypeError. -/
def getFileTreeNode : FileTree → List String → Except String FileTree
  | t, [] => .ok t
  | .dir children, seg :: rest =>
    match dictGet children seg with
    | some c => getFileTreeNode c rest
    | none => .error "Path does not exist in this torrent"
  | .leaf _, _ :: _ => .error "TypeError"

-- Python _traverse_nodes: depth-first enumeration of the leaves under
-- a node.
mutual
def traverseNodes : FileTree → List Nat
  | .leaf i => [i]
  | .dir children => traverseChildren children
def traverseChildren : List (String × FileTree) → List Nat
  | [] => []
  | c :: rest => traverseNodes c.2 ++ traverseChildren rest
end

/-- DownloadInfo.DISTRUST_RATE_TO_BAN = 5. -/
def DISTRUST_RATE_TO_BAN : Nat := 5

/-- DownloadInfo: the transfer orchestrator.  The session statistics field
is omitted (no claim touches it); host_distrust_rates is the dict from host
to counter. -/
structure DownloadInfo where
  info_hash : List Nat
  piece_length : Nat
  suggested_name : String
  files : List FileInfo
  file_tree : FileTree
  is_private : Bool
  pieces : List PieceInfo
  interesting_pieces : Option (List Nat)
  downloaded_piece_count : Nat
  complete : Bool
  host_distrust_rates : List (String × Nat)

/-- DownloadInfo.total_size: the sum of the file lengths. -/
def totalSizeOf (files : List FileInfo) : Nat := (files.map (fun f => f.length)).sum

def DownloadInfo.total_size (d : DownloadInfo) : Nat := totalSizeOf d.files

/-- DownloadInfo construction.  In source order: the file tree is created
(assigning offsets), the piece list is built (every hash but the last paired
with piece_length, the last with total_size - (count-1)*piece_length), the
non-empty assert and then the piece-count consistency check are applied.
Division by a zero piece_length raises ZeroDivisionError in Python. -/
def DownloadInfo.make (info_hash : List Nat) (piece_length : Nat)
    (piece_hashes : List (List Nat)) (suggested_name : String)
    (files : List FileInfo) (is_private : Bool) : Except String DownloadInfo :=
  match createFileTree files with
  | .error e => .error e
  | .ok (files', tree) =>
    if piece_hashes.isEmpty then .error "AssertionError"
    else
      let total := totalSizeOf files'
      let n := piece_hashes.length
      let last_piece_length := total - (n - 1) * piece_length
      let pieces :=
        (piece_hashes.dropLast.map (fun h => PieceInfo.make h piece_length)) ++
          [PieceInfo.make (piece_hashes.getLastD []) last_piece_length]
      if piece_length == 0 then .error "ZeroDivisionError"
      else if ceilDiv total piece_length != n then .error "Invalid count of piece hashes"
      else
        .ok { info_hash := info_hash, piece_length := piece_length,
              suggested_name := suggested_name, files := files',
              file_tree := tree, is_private := is_private, pieces := pieces,
              interesting_pieces := none, downloaded_piece_count := 0,
              complete := false, host_distrust_rates := [] }

/-- DownloadInfo.get_real_piece_length. -/
def DownloadInfo.get_real_piece_length (d : DownloadInfo) (index : Nat) : Nat :=
  if index == d.pieces.length - 1 then
    d.total_size - d.piece_length * (d.pieces.length - 1)
  else d.piece_length

/-- DownloadInfo.bytes_left, in exact integers (the last piece shortfall is
negative). -/
def DownloadInfo.bytes_left (d : DownloadInfo) : Int :=
  let result : Int :=
    ((d.pieces.length : Int) - (d.downloaded_piece_count : Int)) * (d.piece_length : Int)
  let last := d.pieces.getD (d.pieces.length - 1) default
  if last.downloaded then result
  else result + ((last.length : Int) - (d.piece_length : Int))

/-- dict lookup on the distrust counters (a Python dict has at most one
entry per key; lookup returns the entry for the key, if any). -/
def rateGet : List (String × Nat) → String → Option Nat
  | [], _ => none
  | kv :: rest, h => if kv.1 == h then some kv.2 else rateGet rest h

/-- self._host_distrust_rates[host] = get(host, 0) + 1. -/
def rateBump (m : List (String × Nat)) (h : String) : List (String × Nat) :=
  match rateGet m h with
  | some v => m.map (fun kv => if kv.1 == h then (kv.1, v + 1) else kv)
  | none => m ++ [(h, 1)]

/-- DownloadInfo.increase_distrust: per-host counter increment. -/
def DownloadInfo.increase_distrust (d : DownloadInfo) (peer : Peer) : DownloadInfo :=
  { d with host_distrust_rates := rateBump d.host_distrust_rates peer.host }

/-- DownloadInfo.is_banned: the host is present and its counter has reached
DISTRUST_RATE_TO_BAN. -/
def DownloadInfo.is_banned (d : DownloadInfo) (peer : Peer) : Bool :=
  match rateGet d.host_distrust_rates peer.host with
  | some v => decide (v ≥ DISTRUST_RATE_TO_BAN)
  | none => false

/-- DownloadInfo.reset_run_state: fresh copies of the pieces with their run
state reset, and a fresh empty interesting set. -/
def DownloadInfo.reset_run_state (d : DownloadInfo) : DownloadInfo :=
  { d with pieces := d.pieces.map PieceInfo.reset_run_state,
           interesting_pieces := some [] }

/-- Setting node.selected for the traversed leaves: files whose (positional)
index is in idxs get their selected flag set to v. -/
def setSelectedAux (idxs : List Nat) (v : Bool) (i : Nat) : List FileInfo → List FileInfo
  | [] => []
  | f :: rest =>
    (if idxs.contains i then { f with selected := v } else f) ::
      setSelectedAux idxs v (i + 1) rest

def setSelectedAt (files : List FileInfo) (idxs : List Nat) (v : Bool) : List FileInfo :=
  setSelectedAux idxs v 0 files

/-- The per-path loop of select_files: resolve each path, mark every leaf
under it selected (whitelist) or unselected (blacklist) and collect its
(offset, length) segment.  On a resolution error the files mutated so far
are returned together with the error (Python raises mid-loop with the
mutations already applied). -/
def collectSegments (tree : FileTree) (include_paths : Bool) :
    List FileInfo → List (List String) →
      List FileInfo × List (Nat × Nat) × Option String
  | files, [] => (files, [], none)
  | files, path :: rest =>
    match getFileTreeNode tree path with
    | .error e => (files, [], some e)
    | .ok node =>
      let idxs := traverseNodes node
      let files' := setSelectedAt files idxs include_paths
      let segs := idxs.map (fun i =>
        ((files'.getD i default).offset, (files'.getD i default).length))
      match collectSegments tree include_paths files' rest with
      | (files'', segs', err) => (files'', segs ++ segs', err)

/-- Lexicographic order on (offset, length) pairs, as Python tuple sort. -/
def segLe (a b : Nat × Nat) : Bool :=
  decide (a.1 < b.1) || (a.1 == b.1 && decide (a.2 ≤ b.2))

def insertSorted (x : Nat × Nat) : List (Nat × Nat) → List (Nat × Nat)
  | [] => [x]
  | y :: rest => if segLe x y then x :: y :: rest else y :: insertSorted x rest

/-- segments.sort(). -/
def sortSegments : List (Nat × Nat) → List (Nat × Nat)
  | [] => []
  | x :: rest => insertSorted x (sortSegments rest)

/-- Merging adjacent contiguous segments into united_segments. -/
def uniteSegments (segs : List (Nat × Nat)) : List (Nat × Nat) :=
  segs.foldl (fun acc cur =>
    match acc.getLast? with
    | some last =>
      if last.1 + last.2 == cur.1 then acc.dropLast ++ [(last.1, last.2 + cur.2)]
      else acc ++ [cur]
    | none => [cur]) []

/-- The asymmetric segment-to-piece-range conversion: whitelist rounds
outward (floor begin, ceil end), blacklist rounds inward (ceil begin, floor
end). -/
def segmentPieceRange (include_paths : Bool) (piece_length offset length : Nat) :
    Nat × Nat :=
  if include_paths then
    (offset / piece_length, ceilDiv (offset + length) piece_length)
  else
    (ceilDiv offset piece_length, (offset + length) / piece_length)

/-- for index in range(piece_begin, piece_end): pieces[index].selected = v.
(For valid transfers piece_end never exceeds the piece count.) -/
def selectRangeAux (b e : Nat) (v : Bool) (i : Nat) : List PieceInfo → List PieceInfo
  | [] => []
  | p :: rest =>
    (if decide (b ≤ i) && decide (i < e) then { p with selected := v } else p) ::
      selectRangeAux b e v (i + 1) rest

def selectPieceRange (pieces : List PieceInfo) (b e : Nat) (v : Bool) : List PieceInfo :=
  selectRangeAux b e v 0 pieces

/-- DownloadInfo.select_files.  The result is the state of the object when
the call returns together with the raised error, if any: Python mutates the
object in place, so a ValueError raised after the selected flags were reset
leaves those mutations visible.  Source order: mode check, single-file
check, reset of every piece and file flag, per-path marking and segment
collection, empty/total-selection check, sort, merge, and the per-segment
piece-range marking. -/
def DownloadInfo.select_files (d : DownloadInfo) (paths : List (List String))
    (mode : String) : DownloadInfo × Option String :=
  if !(mode == "whitelist" || mode == "blacklist") then
    (d, some "Invalid mode")
  else
    let include_paths := mode == "whitelist"
    if d.files.length == 1 && (d.files.headD default).path.isEmpty then
      (d, some "Cannot select files in a single-file torrent")
    else
      let pieces1 := d.pieces.map (fun p => { p with selected := !include_paths })
      let files1 := d.files.map (fun f => { f with selected := !include_paths })
      match collectSegments d.file_tree include_paths files1 paths with
      | (files2, segments, err) =>
        let d1 := { d with pieces := pieces1, files := files2 }
        match err with
        | some e => (d1, some e)
        | none =>
          if (include_paths && segments.isEmpty) ||
              (!include_paths && segments.length == d.files.length) then
            (d1, some "Cannot exclude all files from the torrent")
          else
            let united := uniteSegments (sortSegments segments)
            let pieces2 := united.foldl (fun ps seg =>
              let r := segmentPieceRange include_paths d.piece_length seg.1 seg.2
              selectPieceRange ps r.1 r.2 include_paths) pieces1
            ({ d with pieces := pieces2, files := files2 }, none)

/-- Iterated increase_distrust over a list of reporting calls. -/
def applyDistrust (d : DownloadInfo) (calls : List Peer) : DownloadInfo :=
  calls.foldl DownloadInfo.increase_distrust d

instance : Inhabited FileTree := ⟨.dir []⟩

instance : Inhabited DownloadInfo :=
  ⟨{ info_hash := [], piece_length := 1, suggested_name := "", files := [],
     file_tree := default, is_private := false, pieces := [],
     interesting_pieces := none, downloaded_piece_count := 0, complete := false,
     host_distrust_rates := [] }⟩

/-! Concrete example data shared by the witnesses: a two-file transfer
(1000-byte file "a" followed by 1000-byte file "b") with 1024-byte pieces,
so piece 0 straddles the boundary between the two files. -/

def exFiles : List FileInfo :=
  [FileInfo.make 1000 ["a"] none, FileInfo.make 1000 ["b"] none]

def exD : DownloadInfo :=
  match DownloadInfo.make [1] 1024 [[10], [11]] "t" exFiles false with
  | .ok d => d
  | .error _ => default

def exPeer : Peer := ⟨"1.2.3.4", 6881, none⟩

/-- Same host as exPeer, different port. -/
def exPeerB : Peer := ⟨"1.2.3.4", 9999, none⟩

def fut1 : BlockRequestFuture :=
  { objId := 0, piece_index := 0, block_begin := 0, block_length := 512 }

def fut2 : BlockRequestFuture :=
  { objId := 1, piece_index := 0, block_begin := 0, block_length := 1024 }

/-- A 1500-byte piece with two overlapping pending transfers. -/
def exPiece : PieceInfo :=
  { PieceInfo.make [5] 1500 with blocks_expected := some [fut1, fut2] }

/-- A fully downloaded piece (bookkeeping discarded). -/
def exPieceDown : PieceInfo :=
  { PieceInfo.make [10] 1024 with
      downloaded := true, sources := none,
      block_downloaded := none, blocks_expected := none }

/-- A pending piece with an owner and one pending transfer. -/
def exPiecePend : PieceInfo :=
  { PieceInfo.make [11] 976 with owners := [exPeer], blocks_expected := some [fut1] }

/-- exD after one piece was downloaded and the other acquired run state. -/
def exD2 : DownloadInfo :=
  { exD with pieces := [exPieceDown, exPiecePend], downloaded_piece_count := 1 }

/-- exD with every piece downloaded. -/
def exDDone : DownloadInfo :=
  { exD with
    pieces := [exPieceDown,
               { PieceInfo.make [11] 976 with
                   downloaded := true, sources := none,
                   block_downloaded := none, blocks_expected := none }],
    downloaded_piece_count := 2 }

/-! ## Helper lemmas -/

theorem getD_map_reset (l : List PieceInfo) (i : Nat) (h : i < l.length) :
    (l.map PieceInfo.reset_run_state).getD i default =
      PieceInfo.reset_run_state (l.getD i default) := by
  rw [List.getD_eq_getElem l default h,
      List.getD_eq_getElem _ default (by simpa using h)]
  simp

/-! ## C1 -/

/-- C1: the claim states that two BlockRequestFuture instances with equal
piece_index, block_begin and block_length are equal with equal hashes.  The
source overrides both with the asyncio.Future (object identity) versions,
so two distinct instances with the same byte range compare unequal, have
different hashes, and one cannot be removed from a set via membership of
the other. -/
theorem C1_counterexample :
    (BlockRequestFuture.mk 0 7 0 16384 none [] none).request =
      (BlockRequestFuture.mk 1 7 0 16384 none [] none).request ∧
    BlockRequestFuture.eq (BlockRequestFuture.mk 0 7 0 16384 none [] none)
      (BlockRequestFuture.mk 1 7 0 16384 none [] none) = false ∧
    BlockRequestFuture.hashKey (BlockRequestFuture.mk 0 7 0 16384 none [] none) ≠
      BlockRequestFuture.hashKey (BlockRequestFuture.mk 1 7 0 16384 none [] none) ∧
    [BlockRequestFuture.mk 0 7 0 16384 none [] none].filter
        (fun f => !BlockRequestFuture.eq f (BlockRequestFuture.mk 1 7 0 16384 none [] none)) =
      [BlockRequestFuture.mk 0 7 0 16384 none [] none] := by
  decide

/-- C1 (amended): equality and hash over the (piece_index, block_begin,
block_length) triple hold for plain BlockRequest values; BlockRequestFuture
instead compares and hashes by object identity, so resolution state is
irrelevant but distinct instances over the same range are never equal. -/
theorem C1_equality_semantics :
    (∀ a b : BlockRequest, BlockRequest.eq a b = true ↔ a = b) ∧
    (∀ a b : BlockRequest, a.hashKey = b.hashKey ↔ a = b) ∧
    (∀ f g : BlockRequestFuture, BlockRequestFuture.eq f g = true ↔ f.objId = g.objId) := by
  refine ⟨fun a b => ?_, fun a b => ?_, fun f g => ?_⟩
  · cases a; cases b
    simp [BlockRequest.eq, BlockRequest.mk.injEq, and_assoc]
  · cases a; cases b
    simp [BlockRequest.hashKey, BlockRequest.mk.injEq, Prod.ext_iff]
  · simp [BlockRequestFuture.eq]

/-! ## C6 -/

/-- C6: mark_as_downloaded fails when the piece is already downloaded
(hence a second call always fails), and otherwise sets downloaded and
discards sources, the block bitfield and the pending set (all three become
absent). -/
theorem C6_mark_as_downloaded (p : PieceInfo) :
    (p.downloaded = true →
      p.mark_as_downloaded = .error "The piece is already downloaded") ∧
    (p.downloaded = false →
      p.mark_as_downloaded =
        .ok { p with downloaded := true, sources := none,
                     block_downloaded := none, blocks_expected := none }) ∧
    (∀ q, p.mark_as_downloaded = .ok q →
      q.mark_as_downloaded = .error "The piece is already downloaded") := by
  refine ⟨fun h => by simp [PieceInfo.mark_as_downloaded, h],
          fun h => by simp [PieceInfo.mark_as_downloaded, h],
          fun q hq => ?_⟩
  by_cases hd : p.downloaded
  · simp [PieceInfo.mark_as_downloaded, hd] at hq
  · simp [PieceInfo.mark_as_downloaded, hd] at hq
    simp [PieceInfo.mark_as_downloaded, ← hq]

/-- C6 witness: marking a fresh piece succeeds and discards the
bookkeeping; marking the result again fails. -/
theorem C6_witness :
    (PieceInfo.make [0] 100).mark_as_downloaded =
      .ok { piece_hash := [0], length := 100, selected := true, owners := [],
            validating := false, downloaded := true, sources := none,
            block_downloaded := none, blocks_expected := none } ∧
    PieceInfo.mark_as_downloaded
        { piece_hash := [0], length := 100, selected := true, owners := [],
          validating := false, downloaded := true, sources := none,
          block_downloaded := none, blocks_expected := none } =
      .error "The piece is already downloaded" :=
  ⟨(C6_mark_as_downloaded (PieceInfo.make [0] 100)).2.1 rfl,
   (C6_mark_as_downloaded _).1 rfl⟩

/-! ## C7 -/

/-- C7: PieceInfo.reset_run_state clears only owners, validating and the
pending set, leaving downloaded, sources, the bitfield, selected, hash and
length unchanged; DownloadInfo.reset_run_state applies this to a fresh copy
of every piece. -/
theorem C7_reset_run_state :
    (∀ p : PieceInfo,
      p.reset_run_state.owners = [] ∧ p.reset_run_state.validating = false ∧
      p.reset_run_state.blocks_expected = some [] ∧
      p.reset_run_state.downloaded = p.downloaded ∧
      p.reset_run_state.sources = p.sources ∧
      p.reset_run_state.block_downloaded = p.block_downloaded ∧
      p.reset_run_state.selected = p.selected ∧
      p.reset_run_state.piece_hash = p.piece_hash ∧
      p.reset_run_state.length = p.length) ∧
    (∀ d : DownloadInfo,
      d.reset_run_state.pieces = d.pieces.map PieceInfo.reset_run_state ∧
      d.reset_run_state.pieces.length = d.pieces.length ∧
      (∀ i, i < d.pieces.length →
        (d.reset_run_state.pieces.getD i default).downloaded =
          (d.pieces.getD i default).downloaded ∧
        (d.reset_run_state.pieces.getD i default).sources =
          (d.pieces.getD i default).sources ∧
        (d.reset_run_state.pieces.getD i default).selected =
          (d.pieces.getD i default).selected ∧
        (d.reset_run_state.pieces.getD i default).owners = [] ∧
        (d.reset_run_state.pieces.getD i default).validating = false ∧
        (d.reset_run_state.pieces.getD i default).blocks_expected = some [])) := by
  refine ⟨fun p => by simp [PieceInfo.reset_run_state], fun d => ⟨rfl, by
    simp [DownloadInfo.reset_run_state], fun i hi => ?_⟩⟩
  have hm : d.reset_run_state.pieces.getD i default =
      PieceInfo.reset_run_state (d.pieces.getD i default) := by
    simpa [DownloadInfo.reset_run_state] using getD_map_reset d.pieces i hi
  rw [hm]
  simp [PieceInfo.reset_run_state]

/-- C7 witness: on a transfer with one downloaded and one pending piece,
reset_run_state keeps downloaded on the first and clears owners and pending
transfers on the second. -/
theorem C7_witness :
    (exD2.reset_run_state.pieces.getD 0 default).downloaded =
      (exD2.pieces.getD 0 default).downloaded ∧
    (exD2.pieces.getD 0 default).downloaded = true ∧
    (exD2.reset_run_state.pieces.getD 1 default).owners = [] ∧
    (exD2.reset_run_state.pieces.getD 1 default).blocks_expected = some [] :=
  ⟨((C7_reset_run_state.2 exD2).2.2 0 (by decide)).1, rfl,
   ((C7_reset_run_state.2 exD2).2.2 1 (by decide)).2.2.2.1,
   ((C7_reset_run_state.2 exD2).2.2 1 (by decide)).2.2.2.2.2⟩

/-! ## Construction lemmas -/

/-- buildTree only assigns offsets: length, path, md5sum and selected of
every file are unchanged. -/
theorem buildTree_fields :
    ∀ (files : List FileInfo) (idx off : Nat) (t : FileTree)
      (files' : List FileInfo) (t' : FileTree),
      buildTree files idx off t = .ok (files', t') →
      files'.map (fun f => (f.length, f.path, f.md5sum, f.selected)) =
        files.map (fun f => (f.length, f.path, f.md5sum, f.selected)) := by
  intro files
  induction files with
  | nil =>
    intro idx off t files' t' h
    simp only [buildTree] at h
    cases h
    simp
  | cons f rest ih =>
    intro idx off t files' t' h
    simp only [buildTree] at h
    cases hins : insertLeaf t f.path idx with
    | error e => rw [hins] at h; exact absurd h (by simp)
    | ok t1 =>
      rw [hins] at h
      dsimp only at h
      cases hrec : buildTree rest (idx + 1) (off + f.length) t1 with
      | error e => rw [hrec] at h; exact absurd h (by simp)
      | ok pr =>
        obtain ⟨rest', t2⟩ := pr
        rw [hrec] at h
        simp only [Except.ok.injEq, Prod.mk.injEq] at h
        obtain ⟨hf, ht⟩ := h
        rw [← hf]
        simp [ih _ _ _ _ _ hrec]

/-- Inversion of a successful DownloadInfo construction. -/
theorem make_ok_inv (info_hash : List Nat) (pl : Nat) (hashes : List (List Nat))
    (name : String) (files : List FileInfo) (pr : Bool) (d : DownloadInfo)
    (h : DownloadInfo.make info_hash pl hashes name files pr = .ok d) :
    ∃ files' tree,
      createFileTree files = .ok (files', tree) ∧
      hashes ≠ [] ∧ pl ≠ 0 ∧
      ceilDiv (totalSizeOf files') pl = hashes.length ∧
      d.files = files' ∧
      d.piece_length = pl ∧
      d.pieces =
        (hashes.dropLast.map (fun hh => PieceInfo.make hh pl)) ++
          [PieceInfo.make (hashes.getLastD [])
            (totalSizeOf files' - (hashes.length - 1) * pl)] ∧
      d.downloaded_piece_count = 0 := by
  rw [DownloadInfo.make] at h
  cases hft : createFileTree files with
  | error e => rw [hft] at h; exact absurd h (by simp)
  | ok pr2 =>
    obtain ⟨files', tree⟩ := pr2
    rw [hft] at h
    dsimp only at h
    by_cases hhe : hashes.isEmpty
    · simp [hhe] at h
    · rw [if_neg hhe] at h
      by_cases hz : pl = 0
      · simp [hz] at h
      · rw [if_neg (by simp [hz])] at h
        by_cases hc : ceilDiv (totalSizeOf files') pl = hashes.length
        · rw [if_neg (by simp [hc])] at h
          simp only [Except.ok.injEq] at h
          refine ⟨files', tree, rfl, by simpa using hhe, hz, hc, ?_, ?_, ?_, ?_⟩ <;>
            rw [← h]
        · rw [if_pos (by simp [hc])] at h
          exact absurd h (by simp)

/-! ## C10 -/

/-- C10: right after construction every file and every piece is selected:
FileInfo and PieceInfo constructors set selected to true, and DownloadInfo
construction never clears it. -/
theorem C10_default_selection (info_hash : List Nat) (pl : Nat)
    (hashes : List (List Nat)) (name : String)
    (specs : List (Nat × List String)) (pr : Bool) (d : DownloadInfo)
    (h : DownloadInfo.make info_hash pl hashes name
        (specs.map (fun s => FileInfo.make s.1 s.2 none)) pr = .ok d) :
    (∀ f ∈ d.files, f.selected = true) ∧ (∀ p ∈ d.pieces, p.selected = true) := by
  obtain ⟨files', tree, hft, _, _, _, hdf, _, hdp, _⟩ :=
    make_ok_inv _ _ _ _ _ _ _ h
  constructor
  · intro f hf
    have hfields := buildTree_fields _ _ _ _ _ _ hft
    have hmem : (f.length, f.path, f.md5sum, f.selected) ∈
        files'.map (fun g => (g.length, g.path, g.md5sum, g.selected)) := by
      rw [hdf] at hf
      exact List.mem_map_of_mem _ hf
    rw [hfields] at hmem
    simp only [List.map_map] at hmem
    obtain ⟨s, _, hs⟩ := List.mem_map.mp hmem
    have : f.selected = (FileInfo.make s.1 s.2 none).selected := by
      have := congrArg (fun q => q.2.2.2) hs
      simpa using this.symm
    simpa [FileInfo.make] using this
  · intro p hp
    rw [hdp] at hp
    rcases List.mem_append.mp hp with hp | hp
    · obtain ⟨hh, _, hpm⟩ := List.mem_map.mp hp
      rw [← hpm]
      rfl
    · have : p = PieceInfo.make (hashes.getLastD [])
          (totalSizeOf files' - (hashes.length - 1) * pl) := by
        simpa using hp
      rw [this]
      rfl

/-- C10 witness: the example transfer, built from two fresh file specs, has
every file and piece selected. -/
theorem C10_witness :
    (∀ f ∈ exD.files, f.selected = true) ∧ (∀ p ∈ exD.pieces, p.selected = true) :=
  C10_default_selection [1] 1024 [[10], [11]] "t"
    [(1000, ["a"]), (1000, ["b"])] false exD rfl

/-! ## C4 -/

theorem lt_ceilDiv_iff (b p x : Nat) (hb : 0 < b) : p < ceilDiv x b ↔ p * b < x := by
  rw [ceilDiv, Nat.lt_iff_add_one_le, Nat.le_div_iff_mul_le hb]
  have h1 : (p + 1) * b = p * b + b := by ring
  rw [h1]
  generalize p * b = a
  omega

theorem ceilDiv_le_iff (b p x : Nat) (hb : 0 < b) : ceilDiv x b ≤ p ↔ x ≤ p * b := by
  constructor
  · intro hle
    by_contra hx
    push_neg at hx
    exact Nat.not_lt.mpr hle ((lt_ceilDiv_iff b p x hb).mpr hx)
  · intro hx
    by_contra hlt
    push_neg at hlt
    exact absurd hx (Nat.not_le.mpr ((lt_ceilDiv_iff b p x hb).mp hlt))

theorem createFileTree_total (files files' : List FileInfo) (tree : FileTree)
    (hft : createFileTree files = .ok (files', tree)) :
    totalSizeOf files' = totalSizeOf files := by
  have hq := buildTree_fields _ _ _ _ _ _ hft
  have hl : files'.map (fun f => f.length) = files.map (fun f => f.length) := by
    have := congrArg
      (List.map (fun q : Nat × List String × Option String × Bool => q.1)) hq
    simpa [List.map_map, Function.comp] using this
  simp [totalSizeOf, hl]

theorem getD_append_left_pieces :
    ∀ (l1 l2 : List PieceInfo) (i : Nat), i < l1.length →
      (l1 ++ l2).getD i default = l1.getD i default := by
  intro l1
  induction l1 with
  | nil => intro l2 i h; simp at h
  | cons x rest ih =>
    intro l2 i h
    cases i with
    | zero => rfl
    | succ j => simpa using ih l2 j (by simpa using h)

theorem getD_append_right_last :
    ∀ (l1 : List PieceInfo) (x : PieceInfo),
      (l1 ++ [x]).getD l1.length default = x := by
  intro l1 x
  induction l1 with
  | nil => rfl
  | cons y rest ih =>
    simp only [List.cons_append, List.length_cons, List.getD_cons_succ]
    exact ih

theorem map_make_length :
    ∀ (hs : List (List Nat)) (pl : Nat) (i : Nat), i < hs.length →
      ((hs.map (fun hh => PieceInfo.make hh pl)).getD i default).length = pl := by
  intro hs pl
  induction hs with
  | nil => intro i h; simp at h
  | cons x rest ih =>
    intro i h
    cases i with
    | zero => rfl
    | succ j => simpa using ih j (by simpa using h)

theorem map_map_make_length :
    ∀ (hs : List (List Nat)) (pl : Nat),
      (hs.map (fun hh => PieceInfo.make hh pl)).map (fun p => p.length) =
        List.replicate hs.length pl := by
  intro hs pl
  induction hs with
  | nil => rfl
  | cons x rest ih =>
    simp only [List.map_cons, List.length_cons, List.replicate_succ]
    rw [ih]
    rfl

/-- C4: a successful construction yields ceil(total_size / piece_length)
pieces matching the hash count, all nominal-length but the last, whose
length is the remainder of total_size (total_size mod piece_length when
nonzero, piece_length otherwise); the lengths sum to total_size; a hash
count disagreeing with ceil(total_size / piece_length) makes construction
fail. -/
theorem C4_piece_layout :
    (∀ (info_hash : List Nat) (pl : Nat) (hashes : List (List Nat))
       (name : String) (files : List FileInfo) (pr : Bool) (d : DownloadInfo),
      0 < pl →
      DownloadInfo.make info_hash pl hashes name files pr = .ok d →
      d.pieces.length = ceilDiv d.total_size pl ∧
      d.pieces.length = hashes.length ∧
      (∀ i, i + 1 < d.pieces.length → (d.pieces.getD i default).length = pl) ∧
      (d.pieces.getD (d.pieces.length - 1) default).length =
        d.total_size - pl * (d.pieces.length - 1) ∧
      (d.total_size % pl ≠ 0 →
        (d.pieces.getD (d.pieces.length - 1) default).length = d.total_size % pl) ∧
      (d.total_size % pl = 0 →
        (d.pieces.getD (d.pieces.length - 1) default).length = pl) ∧
      (d.pieces.map (fun p => p.length)).sum = d.total_size) ∧
    (∀ (info_hash : List Nat) (pl : Nat) (hashes : List (List Nat))
       (name : String) (files : List FileInfo) (pr : Bool),
      ceilDiv (totalSizeOf files) pl ≠ hashes.length →
      ∀ d, DownloadInfo.make info_hash pl hashes name files pr ≠ .ok d) := by
  constructor
  · intro info_hash pl hashes name files pr d hpl hok
    obtain ⟨files', tree, hft, hne, hz, hc, hdf, hdpl, hdp, hdc⟩ :=
      make_ok_inv _ _ _ _ _ _ _ hok
    have hts : d.total_size = totalSizeOf files' := by
      simp [DownloadInfo.total_size, hdf]
    obtain ⟨m, hm⟩ : ∃ m, hashes.length = m + 1 :=
      ⟨hashes.length - 1, by
        have := List.length_pos.mpr hne
        omega⟩
    have hdllen : hashes.dropLast.length = m := by
      simp [List.length_dropLast, hm]
    have hlen : d.pieces.length = hashes.length := by
      rw [hdp]
      simp [hdllen, hm]
    have h2 : totalSizeOf files' ≤ hashes.length * pl :=
      (ceilDiv_le_iff pl hashes.length (totalSizeOf files') hpl).mp (le_of_eq hc)
    have h1 : (hashes.length - 1) * pl < totalSizeOf files' :=
      (lt_ceilDiv_iff pl (hashes.length - 1) (totalSizeOf files') hpl).mp
        (by rw [hc]; omega)
    have hmul : hashes.length * pl = (hashes.length - 1) * pl + pl := by
      rw [hm]
      simp [Nat.succ_mul]
    have hlast : (d.pieces.getD (d.pieces.length - 1) default).length =
        totalSizeOf files' - (hashes.length - 1) * pl := by
      rw [hdp]
      rw [show ((hashes.dropLast.map (fun hh => PieceInfo.make hh pl)) ++
          [PieceInfo.make (hashes.getLastD [])
            (totalSizeOf files' - (hashes.length - 1) * pl)]).length - 1 =
          (hashes.dropLast.map (fun hh => PieceInfo.make hh pl)).length from by
        simp [hdllen]]
      rw [getD_append_right_last]
      rfl
    have hr1 : 1 ≤ totalSizeOf files' - (hashes.length - 1) * pl := by
      generalize (hashes.length - 1) * pl = A at h1 ⊢
      omega
    have hr2 : totalSizeOf files' - (hashes.length - 1) * pl ≤ pl := by
      generalize hB : hashes.length * pl = B at h2 hmul
      generalize (hashes.length - 1) * pl = A at hmul ⊢
      omega
    refine ⟨by rw [hlen, hts, hc], hlen, ?_, ?_, ?_, ?_, ?_⟩
    · intro i hi
      rw [hlen, hm] at hi
      rw [hdp, getD_append_left_pieces _ _ _ (by simp [hdllen]; omega)]
      exact map_make_length _ _ _ (by rw [hdllen]; omega)
    · rw [hlast, hts, hlen, Nat.mul_comm pl]
    · intro hmod
      rw [hts] at hmod
      rw [hlast, hts]
      rcases Nat.lt_or_ge (totalSizeOf files' - (hashes.length - 1) * pl) pl
        with hlt | hge
      · have ht : totalSizeOf files' =
            (totalSizeOf files' - (hashes.length - 1) * pl) +
              (hashes.length - 1) * pl := by
          generalize (hashes.length - 1) * pl = A at h1 ⊢
          omega
        conv_rhs => rw [ht]
        rw [Nat.add_mul_mod_self_right,
            Nat.mod_eq_of_lt hlt]
      · have ht : totalSizeOf files' = hashes.length * pl := by
          generalize hB : hashes.length * pl = B at h2 hmul ⊢
          generalize (hashes.length - 1) * pl = A at h1 hmul hge ⊢
          omega
        rw [ht, Nat.mul_mod_left] at hmod
        exact absurd rfl hmod
    · intro hmod
      rw [hts] at hmod
      rw [hlast]
      rcases Nat.lt_or_ge (totalSizeOf files' - (hashes.length - 1) * pl) pl
        with hlt | hge
      · have ht : totalSizeOf files' =
            (totalSizeOf files' - (hashes.length - 1) * pl) +
              (hashes.length - 1) * pl := by
          generalize (hashes.length - 1) * pl = A at h1 ⊢
          omega
        rw [ht, Nat.add_mul_mod_self_right, Nat.mod_eq_of_lt hlt] at hmod
        generalize (hashes.length - 1) * pl = A at hr1 hmod ⊢
        omega
      · generalize (hashes.length - 1) * pl = A at hge hr2 ⊢
        omega
    · rw [hdp]
      simp only [List.map_append, List.sum_append, map_map_make_length,
                 List.sum_replicate, smul_eq_mul, List.map_cons, List.map_nil,
                 List.sum_cons, List.sum_nil, hdllen]
      show m * pl + ((totalSizeOf files' - (hashes.length - 1) * pl) + 0) =
        d.total_size
      rw [hts]
      have hAm : (hashes.length - 1) * pl = m * pl := by
        rw [hm]
        simp
      rw [hAm] at h1
      rw [hAm]
      generalize m * pl = A at h1 ⊢
      omega
  · intro info_hash pl hashes name files pr hne d hok
    obtain ⟨files', tree, hft, _, _, hc, _, _, _, _⟩ := make_ok_inv _ _ _ _ _ _ _ hok
    rw [createFileTree_total files files' tree hft] at hc
    exact hne hc

/-- C4 witness: the example transfer has 2 = ceil(2000/1024) pieces whose
lengths sum to its total size. -/
theorem C4_witness :
    exD.pieces.length = 2 ∧ (exD.pieces.map (fun p => p.length)).sum = exD.total_size :=
  ⟨by
    rw [(C4_piece_layout.1 [1] 1024 [[10], [11]] "t" exFiles false exD
      (by decide) rfl).2.1]
    rfl,
   (C4_piece_layout.1 [1] 1024 [[10], [11]] "t" exFiles false exD
      (by decide) rfl).2.2.2.2.2.2⟩

/-! ## C5 -/

/-- C5: whitelist segments round outward (floor start, ceiling end: the
half-open piece range contains exactly the pieces whose byte span meets the
segment), blacklist segments round inward (ceiling start, floor end: exactly
the pieces fully inside the segment); consequently on the example transfer
the boundary piece 0 is selected both by whitelisting file a and by
whitelisting file b. -/
theorem C5_selection_rounding :
    (∀ pl o l p : Nat, 0 < pl →
      segmentPieceRange true pl o l = (o / pl, ceilDiv (o + l) pl) ∧
      (((segmentPieceRange true pl o l).1 ≤ p ∧
          p < (segmentPieceRange true pl o l).2) ↔
        (p * pl < o + l ∧ o < (p + 1) * pl))) ∧
    (∀ pl o l p : Nat, 0 < pl →
      segmentPieceRange false pl o l = (ceilDiv o pl, (o + l) / pl) ∧
      (((segmentPieceRange false pl o l).1 ≤ p ∧
          p < (segmentPieceRange false pl o l).2) ↔
        (o ≤ p * pl ∧ (p + 1) * pl ≤ o + l))) ∧
    ((exD.select_files [["a"]] "whitelist").1.pieces.map (fun q => q.selected) =
        [true, false] ∧
      (exD.select_files [["b"]] "whitelist").1.pieces.map (fun q => q.selected) =
        [true, true]) := by
  refine ⟨fun pl o l p hpl => ⟨rfl, ?_⟩, fun pl o l p hpl => ⟨rfl, ?_⟩,
          rfl, rfl⟩
  · have hA : o / pl ≤ p ↔ o < (p + 1) * pl := by
      constructor
      · intro h
        exact (Nat.div_lt_iff_lt_mul hpl).mp (Nat.lt_succ_of_le h)
      · intro h
        exact Nat.lt_succ_iff.mp ((Nat.div_lt_iff_lt_mul hpl).mpr h)
    have hB : p < ceilDiv (o + l) pl ↔ p * pl < o + l :=
      lt_ceilDiv_iff pl p (o + l) hpl
    simp only [segmentPieceRange, if_true]
    exact ⟨fun h => ⟨hB.mp h.2, hA.mp h.1⟩, fun h => ⟨hA.mpr h.2, hB.mpr h.1⟩⟩
  · have hC : ceilDiv o pl ≤ p ↔ o ≤ p * pl := ceilDiv_le_iff pl p o hpl
    have hD : p < (o + l) / pl ↔ (p + 1) * pl ≤ o + l := by
      rw [Nat.lt_iff_add_one_le, Nat.le_div_iff_mul_le hpl]
    simp only [segmentPieceRange, Bool.false_eq_true, if_false]
    exact ⟨fun h => ⟨hC.mp h.1, hD.mp h.2⟩, fun h => ⟨hC.mpr h.1, hD.mpr h.2⟩⟩

/-- C5 witness: the rounding equivalence applied to the file-b segment
(offset 1000, length 1000) and piece 0, the boundary piece: the whitelist
range for that segment contains piece 0 although only 24 of its bytes lie
in the segment. -/
theorem C5_witness :
    segmentPieceRange true 1024 1000 1000 =
      (1000 / 1024, ceilDiv (1000 + 1000) 1024) ∧
    (((segmentPieceRange true 1024 1000 1000).1 ≤ 0 ∧
        0 < (segmentPieceRange true 1024 1000 1000).2) ↔
      (0 * 1024 < 1000 + 1000 ∧ 1000 < (0 + 1) * 1024)) :=
  C5_selection_rounding.1 1024 1000 1000 0 (by decide)

/-! ## C3 -/

theorem markSliceAux_length :
    ∀ (l : List Bool) (b e i : Nat), (markSliceAux b e i l).length = l.length := by
  intro l
  induction l with
  | nil => intro b e i; rfl
  | cons x rest ih => intro b e i; simp [markSliceAux, ih]

theorem markSliceAux_getD :
    ∀ (l : List Bool) (b e i j : Nat), j < l.length →
      (markSliceAux b e i l).getD j false =
        (l.getD j false || (decide (b ≤ i + j) && decide (i + j < e))) := by
  intro l
  induction l with
  | nil => intro b e i j h; simp at h
  | cons x rest ih =>
    intro b e i j h
    cases j with
    | zero => simp [markSliceAux]
    | succ k =>
      simp only [markSliceAux, List.getD_cons_succ]
      rw [ih b e (i + 1) k (by simpa using h)]
      rw [show i + 1 + k = i + (k + 1) by omega]

theorem markSlice_length (arr : List Bool) (b e : Nat) :
    (markSlice arr b e).length = arr.length :=
  markSliceAux_length arr b e 0

theorem markSlice_getD (arr : List Bool) (b e j : Nat) (h : j < arr.length) :
    (markSlice arr b e).getD j false =
      (arr.getD j false || (decide (b ≤ j) && decide (j < e))) := by
  have := markSliceAux_getD arr b e 0 j h
  simpa using this

theorem take_all_iff :
    ∀ (l : List Bool) (m : Nat),
      ((l.take m).all (fun b => b) = true) ↔
        (∀ i, i < m → i < l.length → l.getD i false = true) := by
  intro l
  induction l with
  | nil => intro m; simp
  | cons x rest ih =>
    intro m
    cases m with
    | zero => simp
    | succ k =>
      simp only [List.take_succ_cons, List.all_cons, Bool.and_eq_true]
      rw [ih k]
      constructor
      · rintro ⟨hx, hr⟩ i hi hil
        cases i with
        | zero => simpa using hx
        | succ j =>
          simp only [List.getD_cons_succ]
          exact hr j (by omega) (by simpa using hil)
      · intro h
        refine ⟨by simpa using h 0 (by omega) (by simp), fun j hj hjl => ?_⟩
        have := h (j + 1) (by omega) (by simpa using hjl)
        simpa using this

theorem drop_getD :
    ∀ (l : List Bool) (a i : Nat), (l.drop a).getD i false = l.getD (a + i) false := by
  intro l
  induction l with
  | nil => intro a i; simp
  | cons x rest ih =>
    intro a i
    cases a with
    | zero => simp
    | succ k =>
      simp only [List.drop_succ_cons]
      rw [ih k i, show k + 1 + i = (k + i) + 1 by omega, List.getD_cons_succ]

theorem slice_all_iff (l : List Bool) (a m : Nat) :
    (((l.drop a).take m).all (fun b => b) = true) ↔
      (∀ i, a ≤ i → i < a + m → i < l.length → l.getD i false = true) := by
  rw [take_all_iff (l.drop a) m]
  constructor
  · intro h i hai him hil
    have := h (i - a) (by omega) (by rw [List.length_drop]; omega)
    rw [drop_getD, show a + (i - a) = i by omega] at this
    exact this
  · intro h i him hil
    rw [drop_getD]
    rw [List.length_drop] at hil
    exact h (a + i) (by omega) (by omega) (by omega)

/-- The covered-range test of a pending future is exactly: all bits of
[block_begin // SIZE, ceil((block_begin + block_length) / SIZE)) that exist
in the bitfield are true. -/
theorem futAllDownloaded_iff (arr : List Bool) (f : BlockRequestFuture) :
    futAllDownloaded arr f = true ↔
      (∀ i, f.block_begin / MARKED_BLOCK_SIZE ≤ i →
        i < ceilDiv (f.block_begin + f.block_length) MARKED_BLOCK_SIZE →
        i < arr.length → arr.getD i false = true) := by
  unfold futAllDownloaded
  rw [slice_all_iff]
  constructor
  · intro h i h1 h2 h3
    exact h i h1 (by omega) h3
  · intro h i h1 h2 h3
    exact h i h1 (by omega) h3

theorem resolveCovered_eq (arr : List Bool) (source : Peer) :
    ∀ futs : List BlockRequestFuture, (∀ f ∈ futs, f.result = none) →
      resolveCovered arr source futs =
        .ok (futs.filter (fun f => !futAllDownloaded arr f),
             (futs.filter (fun f => futAllDownloaded arr f)).map
               (fun f => { f with result := some source })) := by
  intro futs
  induction futs with
  | nil => intro h; rfl
  | cons f rest ih =>
    intro h
    have hr := ih (fun g hg => h g (List.mem_cons_of_mem f hg))
    have hf : f.result = none := h f (List.mem_cons_self f rest)
    simp only [resolveCovered]
    rw [hr]
    by_cases hcov : futAllDownloaded arr f
    · simp [hcov, BlockRequestFuture.set_result, hf, List.filter_cons]
    · simp [hcov, List.filter_cons]

/-- C3: on a not-yet-downloaded piece, marking an in-range block request
sets exactly the bits from ceil(begin / SIZE) up to (begin+length) // SIZE
(to the bitfield length when the range reaches the piece end), records the
source, and resolves with the source and removes exactly the pending
transfers whose full covered bit range is then entirely true. -/
theorem C3_mark_downloaded_blocks (p : PieceInfo) (source : Peer)
    (request : BlockRequest) (srcs : List Peer)
    (futs : List BlockRequestFuture)
    (hdl : p.downloaded = false) (hs : p.sources = some srcs)
    (hb : p.blocks_expected = some futs)
    (hres : ∀ f ∈ futs, f.result = none)
    (_hin : request.block_begin + request.block_length ≤ p.length) :
    p.mark_downloaded_blocks source request =
      .ok ({ p with sources := some (addPeer srcs source),
                    block_downloaded := some (p.markedArr request),
                    blocks_expected :=
                      some (futs.filter
                        (fun f => !futAllDownloaded (p.markedArr request) f)) },
           (futs.filter (fun f => futAllDownloaded (p.markedArr request) f)).map
             (fun f => { f with result := some source })) ∧
    (p.markedArr request).length = p.initialArr.length ∧
    (∀ i, i < (p.markedArr request).length →
      ((p.markedArr request).getD i false = true ↔
        (p.initialArr.getD i false = true ∨
          (ceilDiv request.block_begin MARKED_BLOCK_SIZE ≤ i ∧
            i < (if request.block_begin + request.block_length = p.length
                 then p.initialArr.length
                 else (request.block_begin + request.block_length) /
                   MARKED_BLOCK_SIZE))))) ∧
    (∀ f, futAllDownloaded (p.markedArr request) f = true ↔
      (∀ i, f.block_begin / MARKED_BLOCK_SIZE ≤ i →
        i < ceilDiv (f.block_begin + f.block_length) MARKED_BLOCK_SIZE →
        i < (p.markedArr request).length →
        (p.markedArr request).getD i false = true)) := by
  refine ⟨?_, markSlice_length _ _ _, ?_,
    fun f => futAllDownloaded_iff _ f⟩
  · unfold PieceInfo.mark_downloaded_blocks
    rw [hdl, hs, hb]
    dsimp only
    rw [resolveCovered_eq _ _ _ hres]
    rfl
  · intro i hi
    simp only [PieceInfo.markedArr] at hi ⊢
    rw [markSlice_length] at hi
    rw [markSlice_getD _ _ _ _ hi]
    by_cases hpe : request.block_begin + request.block_length = p.length
    · have hbe : (request.block_begin + request.block_length == p.length) = true := by
        simp [hpe]
      rw [hbe, if_pos hpe]
      simp only [if_true, Bool.or_eq_true, Bool.and_eq_true, decide_eq_true_eq]
    · have hbe : (request.block_begin + request.block_length == p.length) = false := by
        simp [hpe]
      rw [hbe, if_neg hpe]
      simp only [Bool.false_eq_true, if_false, Bool.or_eq_true, Bool.and_eq_true,
                 decide_eq_true_eq]

/-- C3 witness: the 1500-byte piece with pending transfers for [0, 512) and
[0, 1024); marking (0, 0, 1500) fills both bits of the bitfield and
resolves and removes both transfers with the reporting peer. -/
theorem C3_witness :
    exPiece.mark_downloaded_blocks exPeer ⟨0, 0, 1500⟩ =
      .ok ({ exPiece with
              sources := some [exPeer],
              block_downloaded := some [true, true],
              blocks_expected := some [] },
           [{ fut1 with result := some exPeer },
            { fut2 with result := some exPeer }]) ∧
    (exPiece.markedArr ⟨0, 0, 1500⟩).length = exPiece.initialArr.length :=
  ⟨(C3_mark_downloaded_blocks exPiece exPeer ⟨0, 0, 1500⟩ [] [fut1, fut2]
      rfl rfl rfl (by decide) (by decide)).1,
   (C3_mark_downloaded_blocks exPiece exPeer ⟨0, 0, 1500⟩ [] [fut1, fut2]
      rfl rfl rfl (by decide) (by decide)).2.1⟩

/-! ## C9 -/

theorem rateGet_append_one (m : List (String × Nat)) (h h' : String) :
    rateGet (m ++ [(h, 1)]) h' =
      match rateGet m h' with
      | some w => some w
      | none => if h' = h then some 1 else none := by
  induction m with
  | nil =>
    by_cases hh : h' = h
    · simp [rateGet, hh]
    · simp [rateGet, hh, Ne.symm hh]
  | cons kv rest ih =>
    by_cases hk : kv.1 = h'
    · simp [rateGet, hk]
    · simp [rateGet, hk, ih]

theorem rateGet_map_bump (m : List (String × Nat)) (h h' : String) (v : Nat) :
    rateGet (m.map (fun kv => if kv.1 == h then (kv.1, v + 1) else kv)) h' =
      match rateGet m h' with
      | some w => if h' = h then some (v + 1) else some w
      | none => none := by
  induction m with
  | nil => simp [rateGet]
  | cons kv rest ih =>
    simp only [beq_iff_eq] at ih ⊢
    by_cases hk : kv.1 = h'
    · by_cases hh : h' = h
      · simp [rateGet, hk, hh]
      · have hne : ¬kv.1 = h := fun c => hh ((hk.symm.trans c).symm ▸ rfl)
        simp [rateGet, hk, hh, hne]
    · by_cases hkh : kv.1 = h
      · have hne : ¬h = h' := fun c => hk (hkh.trans c)
        simp [rateGet, hk, hkh, hne, ih]
      · simp [rateGet, hk, hkh, ih]

theorem rateGet_rateBump (m : List (String × Nat)) (h h' : String) :
    rateGet (rateBump m h) h' =
      if h' = h then some ((rateGet m h).getD 0 + 1) else rateGet m h' := by
  cases hm : rateGet m h with
  | none =>
    rw [rateBump, hm, rateGet_append_one]
    by_cases hh : h' = h
    · subst hh
      rw [hm]
      simp
    · cases hw : rateGet m h' <;> simp [hh]
  | some v =>
    rw [rateBump, hm, rateGet_map_bump]
    by_cases hh : h' = h
    · subst hh
      rw [hm]
      simp
    · cases hw : rateGet m h' <;> simp [hh]

theorem rateGet_applyDistrust (calls : List Peer) (d : DownloadInfo) (h : String) :
    rateGet (applyDistrust d calls).host_distrust_rates h =
      match rateGet d.host_distrust_rates h with
      | some v => some (v + (calls.filter (fun q => q.host == h)).length)
      | none =>
        if (calls.filter (fun q => q.host == h)).length = 0 then none
        else some ((calls.filter (fun q => q.host == h)).length) := by
  induction calls generalizing d with
  | nil => cases hm : rateGet d.host_distrust_rates h <;> simp [applyDistrust, hm]
  | cons c rest ih =>
    have hstep : applyDistrust d (c :: rest) =
        applyDistrust (d.increase_distrust c) rest := rfl
    rw [hstep, ih]
    have hrates : (d.increase_distrust c).host_distrust_rates =
        rateBump d.host_distrust_rates c.host := rfl
    rw [hrates, rateGet_rateBump]
    by_cases hc : h = c.host
    · rw [hc]
      cases hm : rateGet d.host_distrust_rates c.host <;>
        simp [hm, List.filter_cons] <;> try omega
    · have hf : (c.host == h) = false := by
        simp [Ne.symm hc]
      cases hm : rateGet d.host_distrust_rates h <;>
        simp [hc, hm, hf, List.filter_cons]

/-- C9: with no prior distrust for a host, the peer becomes banned exactly
when at least DISTRUST_RATE_TO_BAN = 5 of the recorded calls carry that
host; two peers differing only in port share the counter, so 5 reports
against one ban the other while 4 do not. -/
theorem C9_distrust_ban :
    (∀ (d : DownloadInfo) (calls : List Peer) (peer : Peer),
      rateGet d.host_distrust_rates peer.host = none →
      ((applyDistrust d calls).is_banned peer = true ↔
        DISTRUST_RATE_TO_BAN ≤
          (calls.filter (fun q => q.host == peer.host)).length)) ∧
    (applyDistrust exD (List.replicate 5 exPeer)).is_banned exPeerB = true ∧
    (applyDistrust exD (List.replicate 4 exPeer)).is_banned exPeerB = false := by
  refine ⟨fun d calls peer hnone => ?_, by decide, by decide⟩
  rw [DownloadInfo.is_banned, rateGet_applyDistrust, hnone]
  by_cases hL : (calls.filter (fun q => q.host == peer.host)).length = 0
  · simp [hL, DISTRUST_RATE_TO_BAN]
  · simp [hL, DISTRUST_RATE_TO_BAN]

/-- C9 witness: the general equivalence applied to the concrete scenario of
five reports against the same host seen from a different port. -/
theorem C9_witness :
    (applyDistrust exD (List.replicate 5 exPeer)).is_banned exPeerB = true ↔
      DISTRUST_RATE_TO_BAN ≤
        ((List.replicate 5 exPeer).filter
          (fun q => q.host == exPeerB.host)).length :=
  C9_distrust_ban.1 exD (List.replicate 5 exPeer) exPeerB rfl

/-! ## C2 -/

/-- C2: the claim states that every invalid selection request leaves the
selected flags untouched.  Both empty-selection cases refute it on the
example transfer (all flags true): a whitelist call selecting nothing
raises with every piece and file flag reset to false, and a blacklist call
excluding every file raises with every file flag flipped to false. -/
theorem C2_counterexample :
    (exD.select_files [] "whitelist").2 =
      some "Cannot exclude all files from the torrent" ∧
    exD.pieces.map (fun p => p.selected) = [true, true] ∧
    exD.files.map (fun f => f.selected) = [true, true] ∧
    (exD.select_files [] "whitelist").1.pieces.map (fun p => p.selected) =
      [false, false] ∧
    (exD.select_files [] "whitelist").1.files.map (fun f => f.selected) =
      [false, false] ∧
    (exD.select_files [["a"], ["b"]] "blacklist").2 =
      some "Cannot exclude all files from the torrent" ∧
    (exD.select_files [["a"], ["b"]] "blacklist").1.files.map (fun f => f.selected) =
      [false, false] := by
  refine ⟨rfl, rfl, rfl, rfl, rfl, rfl, rfl⟩

/-- C2 (amended): the unknown-mode and single-file checks precede any
mutation and return the state unchanged, but a whitelist selection whose
resulting selection is empty, and a blacklist selection that excludes
every file, raise only after every piece and file selected flag has been
reset to the mode default and the per-file marks applied, so those flags
are not preserved. -/
theorem C2_validation_order :
    (∀ (d : DownloadInfo) (paths : List (List String)) (mode : String),
      mode ≠ "whitelist" → mode ≠ "blacklist" →
      d.select_files paths mode = (d, some "Invalid mode")) ∧
    (∀ (d : DownloadInfo) (paths : List (List String)) (mode : String),
      (mode = "whitelist" ∨ mode = "blacklist") →
      d.files.length = 1 → (d.files.headD default).path = [] →
      d.select_files paths mode =
        (d, some "Cannot select files in a single-file torrent")) ∧
    (∀ d : DownloadInfo,
      ¬(d.files.length = 1 ∧ (d.files.headD default).path = []) →
      d.select_files [] "whitelist" =
        ({ d with pieces := d.pieces.map (fun p => { p with selected := false }),
                  files := d.files.map (fun f => { f with selected := false }) },
          some "Cannot exclude all files from the torrent")) ∧
    (∀ (d : DownloadInfo) (paths : List (List String)) (files2 : List FileInfo)
       (segments : List (Nat × Nat)),
      ¬(d.files.length = 1 ∧ (d.files.headD default).path = []) →
      collectSegments d.file_tree false
          (d.files.map (fun f => { f with selected := true })) paths =
        (files2, segments, none) →
      segments.length = d.files.length →
      d.select_files paths "blacklist" =
        ({ d with pieces := d.pieces.map (fun p => { p with selected := true }),
                  files := files2 },
          some "Cannot exclude all files from the torrent")) := by
  refine ⟨fun d paths mode h1 h2 => ?_, fun d paths mode hm h1 h2 => ?_,
          fun d hns => ?_, fun d paths files2 segments hns hcol hlen => ?_⟩
  · have e1 : (mode == "whitelist") = false := by simp [h1]
    have e2 : (mode == "blacklist") = false := by simp [h2]
    simp [DownloadInfo.select_files, e1, e2]
  · rcases hm with hm | hm <;> subst hm <;>
      simp [DownloadInfo.select_files, h1, h2, -List.headD_eq_head?_getD]
  · have hsf : (d.files.length == 1 && (d.files.headD default).path.isEmpty) = false := by
      by_cases hl : d.files.length = 1
      · have hp : (d.files.headD default).path ≠ [] := fun hp => hns ⟨hl, hp⟩
        simp [hl, hp, -List.headD_eq_head?_getD]
      · simp [hl]
    simp [DownloadInfo.select_files, hsf, collectSegments,
          -List.headD_eq_head?_getD]
  · have hsf : (d.files.length == 1 && (d.files.headD default).path.isEmpty) = false := by
      by_cases hl : d.files.length = 1
      · have hp : (d.files.headD default).path ≠ [] := fun hp => hns ⟨hl, hp⟩
        simp [hl, hp, -List.headD_eq_head?_getD]
      · simp [hl]
    have hbeq : (segments.length == d.files.length) = true := by simp [hlen]
    simp [DownloadInfo.select_files, hsf, hcol, hbeq,
          -List.headD_eq_head?_getD]

/-- C2 witness: an unknown mode is rejected with the state unchanged; an
empty whitelist on the example transfer raises after deselecting
everything; a blacklist of both files raises after resetting the pieces
and deselecting both files. -/
theorem C2_witness :
    exD.select_files [] "x" = (exD, some "Invalid mode") ∧
    exD.select_files [] "whitelist" =
      ({ exD with pieces := exD.pieces.map (fun p => { p with selected := false }),
                  files := exD.files.map (fun f => { f with selected := false }) },
        some "Cannot exclude all files from the torrent") ∧
    exD.select_files [["a"], ["b"]] "blacklist" =
      ({ exD with
          pieces := exD.pieces.map (fun p => { p with selected := true }),
          files := [{ FileInfo.make 1000 ["a"] none with selected := false },
                    { FileInfo.make 1000 ["b"] none with
                        offset := 1000, selected := false }] },
        some "Cannot exclude all files from the torrent") :=
  ⟨C2_validation_order.1 exD [] "x" (by decide) (by decide),
   C2_validation_order.2.2.1 exD (by decide),
   C2_validation_order.2.2.2 exD [["a"], ["b"]]
     [{ FileInfo.make 1000 ["a"] none with selected := false },
      { FileInfo.make 1000 ["b"] none with offset := 1000, selected := false }]
     [(0, 1000), (1000, 1000)] (by decide) rfl rfl⟩

/-! ## C8 -/

/-- C8: bytes_left is (piece_count - downloaded_piece_count) * piece_length
when the last piece is downloaded, minus (piece_length - last piece length)
when it is not. -/
theorem C8_bytes_left (d : DownloadInfo) :
    ((d.pieces.getD (d.pieces.length - 1) default).downloaded = true →
      d.bytes_left =
        ((d.pieces.length : Int) - (d.downloaded_piece_count : Int)) *
          (d.piece_length : Int)) ∧
    ((d.pieces.getD (d.pieces.length - 1) default).downloaded = false →
      d.bytes_left =
        ((d.pieces.length : Int) - (d.downloaded_piece_count : Int)) *
            (d.piece_length : Int) -
          ((d.piece_length : Int) -
            ((d.pieces.getD (d.pieces.length - 1) default).length : Int))) := by
  constructor
  · intro h
    simp only [DownloadInfo.bytes_left, h, if_true]
  · intro h
    simp only [DownloadInfo.bytes_left, h, Bool.false_eq_true, if_false]
    ring

/-- C8 witness: the example transfer (2 pieces of nominal length 1024, a
976-byte last piece, nothing downloaded) has 2000 bytes left; the finished
variant has 1024 * (2 - 2) = 0 bytes left. -/
theorem C8_witness : exD.bytes_left = 2000 ∧ exDDone.bytes_left = 0 := by
  constructor
  · rw [(C8_bytes_left exD).2 rfl]; rfl
  · rw [(C8_bytes_left exDDone).1 rfl]; rfl
